import Mathlib

/-!
Verification of the teloxide dialogue/serializer/markdown fragments.

Strings from the Rust sources are modelled at the byte level: a Rust `str`
or `String` becomes a `List Nat` of its UTF-8 bytes (each below 256).
This keeps the byte-index manipulations of `src/utils/markdown.rs`
(for example the slice `s[..s.len() - 1]` in `italic`) faithful.
-/

/-- A byte string: the UTF-8 bytes of a Rust `str`, as a list of naturals. -/
abbrev Str := List Nat

/-! ## Markdown helpers, from src/utils/markdown.rs -/

/-- Rust `str::starts_with` on byte strings: `startsWith s p` holds when
`p` is a prefix of `s`. All patterns used by the source are ASCII, where
byte-level and char-level matching coincide. -/
def Markdown.startsWith : Str → Str → Bool
  | _, [] => true
  | [], _ :: _ => false
  | b :: s, p :: ps => b == p && Markdown.startsWith s ps

/-- Rust `str::ends_with` on byte strings: `endsWith s p` holds when `p`
is a suffix of `s`. -/
def Markdown.endsWith (s p : Str) : Bool :=
  Markdown.startsWith s.reverse p.reverse

/-- `italic` from src/utils/markdown.rs. Byte values: 95 is the
underscore, 92 the backslash, 114 the letter r; the raw string `\r` in
the source is the two literal bytes 92, 114. The slice `s[..s.len()-1]`
becomes `List.take (s.length - 1)`. -/
def Markdown.italic (s : Str) : Str :=
  if Markdown.startsWith s [95, 95] && Markdown.endsWith s [95, 95] then
    [95] ++ s.take (s.length - 1) ++ [92, 114, 95, 95]
  else
    [95] ++ s ++ [95]

/-- `underline` from src/utils/markdown.rs: tests `starts_with` and
`ends_with` a single underscore (byte 95). -/
def Markdown.underline (s : Str) : Str :=
  if Markdown.startsWith s [95] && Markdown.endsWith s [95] then
    [95, 95] ++ s ++ [92, 114, 95, 95]
  else
    [95, 95] ++ s ++ [95, 95]

/-- Rust `str::replace` for a single-character (single-byte) pattern `p`
with replacement `r`: every occurrence of the byte `p` is replaced by the
byte string `r`. -/
def Markdown.replaceAll (p : Nat) (r : Str) : Str → Str
  | [] => []
  | b :: s => (if b = p then r else [b]) ++ Markdown.replaceAll p r s

/-- `escape` from src/utils/markdown.rs: the chain of 18 single-character
replaces, in source order, each prefixing the character with a backslash
(92). Characters, as bytes: _ 95, * 42, [ 91, ] 93, ( 40, ) 41, ~ 126,
backtick 96, > 62, # 35, + 43, - 45, = 61, | 124, brace 123, brace 125,
. 46, ! 33. -/
def Markdown.escape (s : Str) : Str :=
  s |> Markdown.replaceAll 95 [92, 95]
    |> Markdown.replaceAll 42 [92, 42]
    |> Markdown.replaceAll 91 [92, 91]
    |> Markdown.replaceAll 93 [92, 93]
    |> Markdown.replaceAll 40 [92, 40]
    |> Markdown.replaceAll 41 [92, 41]
    |> Markdown.replaceAll 126 [92, 126]
    |> Markdown.replaceAll 96 [92, 96]
    |> Markdown.replaceAll 62 [92, 62]
    |> Markdown.replaceAll 35 [92, 35]
    |> Markdown.replaceAll 43 [92, 43]
    |> Markdown.replaceAll 45 [92, 45]
    |> Markdown.replaceAll 61 [92, 61]
    |> Markdown.replaceAll 124 [92, 124]
    |> Markdown.replaceAll 123 [92, 123]
    |> Markdown.replaceAll 125 [92, 125]
    |> Markdown.replaceAll 46 [92, 46]
    |> Markdown.replaceAll 33 [92, 33]

/-- The 18 special characters escaped by `Markdown.escape`, as bytes, in
source order. The backslash (92) is deliberately absent. -/
def Markdown.specialChars : Str :=
  [95, 42, 91, 93, 40, 41, 126, 96, 62, 35, 43, 45, 61, 124, 123, 125, 46, 33]

/-- Rust `str::is_char_boundary` on the byte model: index 0 is always a
boundary; past that, the byte at `i` must exist and not be a UTF-8
continuation byte (so below 128 or at least 192), or `i` equals the
length. -/
def Markdown.isCharBoundary (s : Str) (i : Nat) : Bool :=
  if i = 0 then true
  else
    match s.drop i with
    | [] => i == s.length
    | b :: _ => decide (b < 128) || decide (192 ≤ b)

/-- Rust slicing `&s[..i]`, which panics (here: `none`) when `i` is not a
character boundary. -/
def Markdown.sliceTo (s : Str) (i : Nat) : Option Str :=
  if Markdown.isCharBoundary s i then some (s.take i) else none

/-- `italic` again, but with the slice `s[..s.len()-1]` modelled by the
panicking `sliceTo`: totality of the source function is the statement
that this version never returns `none`. -/
def Markdown.italicChecked (s : Str) : Option Str :=
  if Markdown.startsWith s [95, 95] && Markdown.endsWith s [95, 95] then
    (Markdown.sliceTo s (s.length - 1)).map (fun t => [95] ++ t ++ [92, 114, 95, 95])
  else
    some ([95] ++ s ++ [95])

/-! ## Dialogue state values and serializers

The `Serializer` implementations in
src/src/dispatching/dialogue/storage/serializer.rs delegate to the
external serde_json, serde_cbor and bincode crates, whose code is not
part of this repository. They are therefore modelled from the spec
(section 4.1): each strategy is an injective, self-delimiting encoding of
a `StateValue` into bytes, whose decoder accepts exactly the encoder's
outputs and reports a `DeserializeError` on malformed input, truncated
input, or an unknown variant tag. -/

/-- Modelled from the spec: the StateValue tagged union of the dialogue
scenarios (sections 3 and 8). `awaitingName` is the designated initial
variant; `awaitingAge` carries the name collected so far, as bytes. -/
inductive StateValue where
  | awaitingName : StateValue
  | awaitingAge (name : Str) : StateValue
deriving DecidableEq

/-- Modelled from the spec: the error taxonomy of deserialization
(section 4.1): malformed bytes, truncated bytes, or an unknown variant. -/
inductive DeserializeError where
  | malformed : DeserializeError
  | truncated : DeserializeError
  | unknownVariant : DeserializeError
deriving DecidableEq

/-- Escaped payload encoding shared by the serializer models: each byte
equal to the escape byte or the terminator byte is prefixed with the
escape byte; all other bytes pass through. -/
def Ser.escEnc (esc term : Nat) : Str → Str
  | [] => []
  | b :: s => (if b = esc ∨ b = term then [esc, b] else [b]) ++ Ser.escEnc esc term s

/-- Decoder for `Ser.escEnc`: reads bytes up to an unescaped terminator,
returning the decoded payload and the remaining input; `none` on
truncated input or a stray escape byte. It accepts exactly the strings
`Ser.escEnc esc term s ++ term :: rest`. -/
def Ser.escDec (esc term : Nat) : Str → Option (Str × Str)
  | [] => none
  | b :: t =>
    if b = term then some ([], t)
    else if b = esc then
      match t with
      | [] => none
      | c :: t2 =>
        if c = esc ∨ c = term then
          (Ser.escDec esc term t2).map (fun p => (c :: p.1, p.2))
        else none
    else
      (Ser.escDec esc term t).map (fun p => (b :: p.1, p.2))

/-- Modelled from the spec: a serializer strategy determined by four byte
constants: a tag for the unit initial variant, a tag for the
name-carrying variant, and the escape and terminator bytes of the
payload encoding. -/
def Ser.encodeWith (tagName tagAge esc term : Nat) : StateValue → Str
  | .awaitingName => [tagName]
  | .awaitingAge name => tagAge :: (Ser.escEnc esc term name ++ [term])

/-- Modelled from the spec: the matching decoder. It fails with
`truncated` on empty or cut-short input, `unknownVariant` on an
unrecognised leading tag, and `malformed` on trailing garbage or a
payload that does not parse. -/
def Ser.decodeWith (tagName tagAge esc term : Nat) : Str → Except DeserializeError StateValue
  | [] => .error .truncated
  | b :: t =>
    if b = tagName then
      if t = [] then .ok .awaitingName else .error .malformed
    else if b = tagAge then
      match Ser.escDec esc term t with
      | some (name, []) => .ok (.awaitingAge name)
      | some (_, _ :: _) => .error .malformed
      | none => .error .truncated
    else .error .unknownVariant

/-- Modelled from the spec: the JSON strategy (serde_json is an external
crate), instantiated with quote-flavoured constants: escape byte 92 and
terminator 34. -/
def JSON.serialize : StateValue → Str := Ser.encodeWith 110 97 92 34

/-- Modelled from the spec: the JSON strategy decoder. -/
def JSON.deserialize : Str → Except DeserializeError StateValue := Ser.decodeWith 110 97 92 34

/-- Modelled from the spec: the CBOR strategy (serde_cbor is an external
crate), with high-half byte constants. -/
def CBOR.serialize : StateValue → Str := Ser.encodeWith 224 160 255 254

/-- Modelled from the spec: the CBOR strategy decoder. -/
def CBOR.deserialize : Str → Except DeserializeError StateValue := Ser.decodeWith 224 160 255 254

/-- Modelled from the spec: the Bincode strategy (bincode is an external
crate), with low byte constants. -/
def Bincode.serialize : StateValue → Str := Ser.encodeWith 0 1 2 3

/-- Modelled from the spec: the Bincode strategy decoder. -/
def Bincode.deserialize : Str → Except DeserializeError StateValue := Ser.decodeWith 0 1 2 3

/-! ## Storage and the dialogue cycle

The storage backend and the dialogue handle are described in sections
4.2, 4.4 and 5 of the spec; their code is not under src/ (only the
serializer and an example handler are), so they are modelled from the
spec. -/

/-- Modelled from the spec: an opaque, equatable conversation
identifier. -/
abbrev ConversationId := Nat

/-- Modelled from the spec (section 4.2): the in-memory storage state, a
mapping from ConversationId to an optional serialized entry. -/
abbrev Dlg.Storage := ConversationId → Option Str

/-- Modelled from the spec: `get_state` returns the entry if present. -/
def Dlg.get_state (st : Dlg.Storage) (id : ConversationId) : Option Str := st id

/-- Modelled from the spec: `update_state` upserts the entry for `id`,
overwriting any existing value. -/
def Dlg.update_state (st : Dlg.Storage) (id : ConversationId) (bs : Str) : Dlg.Storage :=
  fun j => if j = id then some bs else st j

/-- Modelled from the spec: `remove_state` deletes the entry for `id`;
removing an absent id is a no-op. -/
def Dlg.remove_state (st : Dlg.Storage) (id : ConversationId) : Dlg.Storage :=
  fun j => if j = id then none else st j

/-- Modelled from the spec (section 4.3): a handler failure from the
embedding application. -/
inductive HandlerError where
  | failed : HandlerError
deriving DecidableEq

/-- Modelled from the spec (section 3): a transition either continues
with a next StateValue or ends the dialogue. -/
inductive TransitionResult where
  | next (v : StateValue) : TransitionResult
  | done : TransitionResult
deriving DecidableEq

/-- Modelled from the spec (section 7): the per-cycle error taxonomy
exercised by the dialogue handle. -/
inductive DialogueError where
  | deserialization : DialogueError
  | handlerFailed : DialogueError
  | storageUnavailable : DialogueError
deriving DecidableEq

/-- An incoming message, as bytes. -/
abbrev Msg := Str

/-- Modelled from the spec: a per-variant transition function, total over
variants, which may fail with a HandlerError. -/
abbrev Handler := StateValue → Msg → Except HandlerError TransitionResult

/-- Modelled from the spec (section 4.4, step 1): load and decode the
current state; a missing entry means the initial variant, and a
deserialization failure is surfaced, never silently reset. -/
def Dlg.readState (st : Dlg.Storage) (id : ConversationId) : Except DialogueError StateValue :=
  match Dlg.get_state st id with
  | none => .ok .awaitingName
  | some bs =>
    match JSON.deserialize bs with
    | .ok v => .ok v
    | .error _ => .error .deserialization

/-- Modelled from the spec (section 4.4): one message-processing cycle.
`writeOk` models availability of the backing medium for the step-3
storage operation. The cycle returns the resulting storage next to the
outcome, so that atomicity on failure is a statement about the returned
storage. -/
def Dlg.cycle (handler : Handler) (writeOk : Bool) (st : Dlg.Storage)
    (id : ConversationId) (msg : Msg) : Dlg.Storage × Except DialogueError Unit :=
  match Dlg.readState st id with
  | .error e => (st, .error e)
  | .ok v =>
    match handler v msg with
    | .error _ => (st, .error .handlerFailed)
    | .ok (.next v2) =>
      if writeOk then (Dlg.update_state st id (JSON.serialize v2), .ok ())
      else (st, .error .storageUnavailable)
    | .ok .done =>
      if writeOk then (Dlg.remove_state st id, .ok ())
      else (st, .error .storageUnavailable)

/-- Modelled from the spec (section 5): mutual exclusion per id means the
cycles for one ConversationId run one at a time; a serialized execution
of N cycles is the fold of `Dlg.cycle` over the arrival order. -/
def Dlg.runCycles (handler : Handler) (st : Dlg.Storage) (id : ConversationId)
    (msgs : List Msg) : Dlg.Storage :=
  msgs.foldl (fun s m => (Dlg.cycle handler true s id m).fst) st

/-- The pure per-message transition on optional state: absent state reads
as the initial variant; a handler failure leaves the state unchanged;
`next` stores the new value and `done` removes it. The serialized
byte-level execution refines a fold of this function. -/
def Dlg.pureCycle (handler : Handler) (v? : Option StateValue) (m : Msg) : Option StateValue :=
  match handler (v?.getD .awaitingName) m with
  | .error _ => v?
  | .ok (.next v2) => some v2
  | .ok .done => none

/-! ## The example start handler

From src/examples/dialogue_bot/src/dialogue/states/start.rs. The handler
body is in src/, but the context type and `answer_str` belong to the
excluded network client (spec section 1), modelled here at the interface
boundary: sending either succeeds, yielding the list of messages sent,
or fails with a request error. -/

/-- The unit state struct `StartState` from start.rs. -/
structure StartState where
deriving DecidableEq

/-- The successor state named by start.rs (`ReceiveFullNameState`). -/
inductive DialogueState where
  | receiveFullNameState : DialogueState
deriving DecidableEq

/-- The transition outcome of a subtransition: continue to a state or
exit. -/
inductive TransitionOut where
  | next (s : DialogueState) : TransitionOut
  | stop : TransitionOut
deriving DecidableEq

/-- Modelled from the spec: the failure of an outbound network request
(the `?` in the handler propagates it). -/
inductive RequestError where
  | network : RequestError
deriving DecidableEq

/-- Modelled from the spec: the transition context (`TransitionIn`),
reduced to its observable interface: whether an outbound send will
succeed. -/
structure TransitionIn where
  sendOk : Bool
deriving DecidableEq

/-- Modelled from the spec: `cx.answer_str(text)` sends `text` to the
chat, returning the sent messages, or fails with a request error. -/
def answer_str (cx : TransitionIn) (text : Str) : Except RequestError (List Str) :=
  if cx.sendOk then .ok [text] else .error .network

/-- The bytes of the prompt in start.rs. -/
def startPrompt : Str :=
  [76, 101, 116, 39, 115, 32, 115, 116, 97, 114, 116, 33, 32, 87, 104, 97, 116,
   39, 115, 32, 121, 111, 117, 114, 32, 102, 117, 108, 108, 32, 110, 97, 109,
   101, 63]

/-- The `start` subtransition from start.rs: answers with the prompt
through the context (propagating a failed send), then continues to
`ReceiveFullNameState`. The messages sent through the context are
returned explicitly next to the transition outcome. -/
def start (_state : StartState) (cx : TransitionIn) (_ans : Str) :
    Except RequestError (List Str × TransitionOut) :=
  match answer_str cx startPrompt with
  | .error e => .error e
  | .ok sent => .ok (sent, .next .receiveFullNameState)

/-! ## Lemmas about the markdown helpers -/

theorem Markdown.startsWith_nil (s : Str) : Markdown.startsWith s [] = true := by
  cases s <;> rfl

theorem Markdown.startsWith_iff (p : Str) :
    ∀ s : Str, Markdown.startsWith s p = true ↔ ∃ r, s = p ++ r := by
  induction p with
  | nil =>
    intro s
    simp [Markdown.startsWith_nil]
  | cons q ps ih =>
    intro s
    cases s with
    | nil => simp [Markdown.startsWith]
    | cons b s' => simp [Markdown.startsWith, ih s']

theorem Markdown.endsWith_iff (p s : Str) :
    Markdown.endsWith s p = true ↔ ∃ l, s = l ++ p := by
  unfold Markdown.endsWith
  rw [Markdown.startsWith_iff]
  constructor
  · rintro ⟨r, hr⟩
    refine ⟨r.reverse, ?_⟩
    have := congrArg List.reverse hr
    simpa using this
  · rintro ⟨l, rfl⟩
    exact ⟨l.reverse, by simp⟩

theorem Markdown.take_len_append (l r : Str) : (l ++ r).take l.length = l :=
  List.take_left l r


theorem Markdown.underline_italic_commute (s : Str)
    (h1 : Markdown.startsWith s [95] = false)
    (h2 : Markdown.endsWith s [95] = false) :
    Markdown.underline (Markdown.italic s) = Markdown.italic (Markdown.underline s) ∧
    Markdown.underline (Markdown.italic s) = [95, 95, 95] ++ s ++ [95, 92, 114, 95, 95] := by
  have hs2 : Markdown.startsWith s [95, 95] = false := by
    cases hx : Markdown.startsWith s [95, 95] with
    | false => rfl
    | true =>
      rcases (Markdown.startsWith_iff [95, 95] s).1 hx with ⟨r, rfl⟩
      have ht : Markdown.startsWith ([95, 95] ++ r) [95] = true :=
        (Markdown.startsWith_iff [95] ([95, 95] ++ r)).2 ⟨95 :: r, by simp⟩
      rw [h1] at ht
      exact Bool.noConfusion ht
  have hA : Markdown.italic s = [95] ++ s ++ [95] := by
    simp [Markdown.italic, hs2]
  have hp : Markdown.startsWith (95 :: (s ++ [95])) [95] = true :=
    (Markdown.startsWith_iff [95] _).2 ⟨s ++ [95], by simp⟩
  have he : Markdown.endsWith (95 :: (s ++ [95])) [95] = true :=
    (Markdown.endsWith_iff [95] _).2 ⟨95 :: s, by simp⟩
  have hUI : Markdown.underline (Markdown.italic s)
      = [95, 95, 95] ++ s ++ [95, 92, 114, 95, 95] := by
    rw [hA]
    simp [Markdown.underline, hp, he]
  have hB : Markdown.underline s = [95, 95] ++ s ++ [95, 95] := by
    simp [Markdown.underline, h1]
  have hp2 : Markdown.startsWith (95 :: 95 :: (s ++ [95, 95])) [95, 95] = true :=
    (Markdown.startsWith_iff [95, 95] _).2 ⟨s ++ [95, 95], by simp⟩
  have he2 : Markdown.endsWith (95 :: 95 :: (s ++ [95, 95])) [95, 95] = true :=
    (Markdown.endsWith_iff [95, 95] _).2 ⟨95 :: 95 :: s, by simp⟩
  have htk : (s ++ [95, 95] : Str).take (s.length + 1) = s ++ [95] := by
    have hsp : (s ++ [95, 95] : Str) = (s ++ [95]) ++ [95] := by simp
    rw [hsp]
    have hln : s.length + 1 = (s ++ [95] : Str).length := by simp
    rw [hln]
    exact Markdown.take_len_append _ _
  have hIU : Markdown.italic (Markdown.underline s)
      = [95, 95, 95] ++ s ++ [95, 92, 114, 95, 95] := by
    rw [hB]
    simp [Markdown.italic, hp2, he2, htk]
  exact ⟨hUI.trans hIU.symm, hUI⟩

/-- C8 witness: the commuting equality at the concrete string "foobar". -/
theorem Markdown.underline_italic_commute_witness :
    Markdown.startsWith [102, 111, 111, 98, 97, 114] [95] = false ∧
    Markdown.endsWith [102, 111, 111, 98, 97, 114] [95] = false ∧
    (Markdown.underline (Markdown.italic [102, 111, 111, 98, 97, 114])
        = Markdown.italic (Markdown.underline [102, 111, 111, 98, 97, 114]) ∧
      Markdown.underline (Markdown.italic [102, 111, 111, 98, 97, 114])
        = [95, 95, 95] ++ [102, 111, 111, 98, 97, 114] ++ [95, 92, 114, 95, 95]) :=
  ⟨by decide, by decide,
    Markdown.underline_italic_commute [102, 111, 111, 98, 97, 114] (by decide) (by decide)⟩

theorem Markdown.replaceAll_append (p : Nat) (r a b : Str) :
    Markdown.replaceAll p r (a ++ b)
      = Markdown.replaceAll p r a ++ Markdown.replaceAll p r b := by
  induction a with
  | nil => rfl
  | cons x xs ih => simp [Markdown.replaceAll, ih]

theorem Markdown.replaceAll_skip (p : Nat) (r s : Str) (h : ∀ c ∈ s, c ≠ p) :
    Markdown.replaceAll p r s = s := by
  induction s with
  | nil => rfl
  | cons x xs ih =>
    have hx : x ≠ p := h x (List.mem_cons_self x xs)
    simp [Markdown.replaceAll, hx, ih fun c hc => h c (List.mem_cons_of_mem x hc)]

/-- C9: `escape` is a homomorphism over concatenation, the identity on
strings containing none of the 18 special characters, and in particular
leaves a lone backslash (byte 92, absent from the special set)
unchanged. -/
theorem Markdown.escape_hom_and_id :
    (∀ a b : Str, Markdown.escape (a ++ b) = Markdown.escape a ++ Markdown.escape b) ∧
    (∀ s : Str, (∀ c ∈ s, c ∉ Markdown.specialChars) → Markdown.escape s = s) ∧
    Markdown.escape [92] = [92] := by
  refine ⟨fun a b => ?_, fun s h => ?_, by decide⟩
  · simp [Markdown.escape, Markdown.replaceAll_append]
  · have hne : ∀ x ∈ Markdown.specialChars, ∀ c ∈ s, c ≠ x :=
      fun x hx c hc he => h c hc (he ▸ hx)
    unfold Markdown.escape
    rw [Markdown.replaceAll_skip 95 [92, 95] s (hne 95 (by decide)),
      Markdown.replaceAll_skip 42 [92, 42] s (hne 42 (by decide)),
      Markdown.replaceAll_skip 91 [92, 91] s (hne 91 (by decide)),
      Markdown.replaceAll_skip 93 [92, 93] s (hne 93 (by decide)),
      Markdown.replaceAll_skip 40 [92, 40] s (hne 40 (by decide)),
      Markdown.replaceAll_skip 41 [92, 41] s (hne 41 (by decide)),
      Markdown.replaceAll_skip 126 [92, 126] s (hne 126 (by decide)),
      Markdown.replaceAll_skip 96 [92, 96] s (hne 96 (by decide)),
      Markdown.replaceAll_skip 62 [92, 62] s (hne 62 (by decide)),
      Markdown.replaceAll_skip 35 [92, 35] s (hne 35 (by decide)),
      Markdown.replaceAll_skip 43 [92, 43] s (hne 43 (by decide)),
      Markdown.replaceAll_skip 45 [92, 45] s (hne 45 (by decide)),
      Markdown.replaceAll_skip 61 [92, 61] s (hne 61 (by decide)),
      Markdown.replaceAll_skip 124 [92, 124] s (hne 124 (by decide)),
      Markdown.replaceAll_skip 123 [92, 123] s (hne 123 (by decide)),
      Markdown.replaceAll_skip 125 [92, 125] s (hne 125 (by decide)),
      Markdown.replaceAll_skip 46 [92, 46] s (hne 46 (by decide)),
      Markdown.replaceAll_skip 33 [92, 33] s (hne 33 (by decide))]

/-- C9 witness: homomorphism and identity evaluated at concrete strings
containing a backslash (92) and a plain letter (104). -/
theorem Markdown.escape_hom_and_id_witness :
    Markdown.escape ([92] ++ [104]) = Markdown.escape [92] ++ Markdown.escape [104] ∧
    ((∀ c ∈ ([92, 104] : Str), c ∉ Markdown.specialChars) ∧ Markdown.escape [92, 104] = [92, 104]) :=
  ⟨Markdown.escape_hom_and_id.1 [92] [104],
    by decide, Markdown.escape_hom_and_id.2.1 [92, 104] (by decide)⟩

/-- C10: `italic` is total. The checked model, in which the slice
`s[..s.len()-1]` panics off a character boundary, always returns the
unchecked result: the slice is taken only when the string ends with two
underscores, and the single-byte underscore (95) at index length - 1
makes that index a character boundary. -/
theorem Markdown.italicChecked_total (s : Str) :
    Markdown.italicChecked s = some (Markdown.italic s) := by
  by_cases hc : (Markdown.startsWith s [95, 95] && Markdown.endsWith s [95, 95]) = true
  · have he : Markdown.endsWith s [95, 95] = true := ((Bool.and_eq_true _ _).mp hc).2
    rcases (Markdown.endsWith_iff [95, 95] s).1 he with ⟨l, rfl⟩
    have hb : Markdown.isCharBoundary (l ++ [95, 95])
        ((l ++ [95, 95] : Str).length - 1) = true := by
      have hlen : (l ++ [95, 95] : Str).length - 1 = l.length + 1 := by simp
      have hdrop : (l ++ [95, 95] : Str).drop (l.length + 1) = [95] := by
        have hsp : (l ++ [95, 95] : Str) = (l ++ [95]) ++ [95] := by simp
        have hln : l.length + 1 = (l ++ [95] : Str).length := by simp
        rw [hsp, hln]
        exact List.drop_left _ _
      rw [hlen]
      unfold Markdown.isCharBoundary
      rw [if_neg (Nat.succ_ne_zero l.length), hdrop]
      rfl
    unfold Markdown.italicChecked Markdown.italic Markdown.sliceTo
    rw [if_pos hc, if_pos hc, if_pos hb]
    rfl
  · unfold Markdown.italicChecked Markdown.italic
    rw [if_neg hc, if_neg hc]

theorem Ser.escDec_escEnc (esc term : Nat) (hne : esc ≠ term) :
    ∀ s rest : Str,
      Ser.escDec esc term (Ser.escEnc esc term s ++ term :: rest) = some (s, rest) := by
  intro s
  induction s with
  | nil =>
    intro rest
    unfold Ser.escEnc Ser.escDec
    simp
  | cons a s ih =>
    intro rest
    by_cases ha : a = esc ∨ a = term
    · simp only [Ser.escEnc, if_pos ha, List.cons_append, List.append_assoc, List.nil_append]
      simp [Ser.escDec, if_neg hne, ha, ih rest]
    · have ha' := not_or.mp ha
      simp only [Ser.escEnc, if_neg ha, List.cons_append, List.append_assoc, List.nil_append]
      unfold Ser.escDec
      simp [ha'.1, ha'.2, ih rest]

theorem Ser.escDec_canonical (esc term : Nat) :
    ∀ bs s r : Str, Ser.escDec esc term bs = some (s, r) →
      Ser.escEnc esc term s ++ term :: r = bs := by
  intro bs
  induction bs using Ser.escDec.induct esc term with
  | case1 =>
    intro s r h
    simp [Ser.escDec] at h
  | case2 tail =>
    intro s r h
    rw [Ser.escDec.eq_def] at h
    simp at h
    obtain ⟨hs, hr⟩ := h
    subst hs
    subst hr
    simp [Ser.escEnc]
  | case3 hne =>
    intro s r h
    rw [Ser.escDec.eq_def] at h
    simp [hne] at h
  | case4 b tail hb hne ih =>
    intro s r h
    rw [Ser.escDec.eq_def] at h
    simp only [if_neg hne, hb, if_pos rfl, if_true, Option.map_eq_some'] at h
    obtain ⟨⟨s', r'⟩, hdec, hpair⟩ := h
    simp at hpair
    obtain ⟨hs, hr⟩ := hpair
    subst hs
    subst hr
    have htail := ih s' r' hdec
    simp [Ser.escEnc, hb, htail]
  | case5 b tail hb hne =>
    intro s r h
    rw [Ser.escDec.eq_def] at h
    simp [hne, hb] at h
  | case6 b tail hbt hbe ih =>
    intro s r h
    rw [Ser.escDec.eq_def] at h
    simp only [if_neg hbt, if_neg hbe, Option.map_eq_some'] at h
    obtain ⟨⟨s', r'⟩, hdec, hpair⟩ := h
    simp at hpair
    obtain ⟨hs, hr⟩ := hpair
    subst hs
    subst hr
    have htail := ih s' r' hdec
    simp [Ser.escEnc, not_or.mpr ⟨hbe, hbt⟩, htail]

theorem Ser.decodeWith_encodeWith (tagName tagAge esc term : Nat)
    (h1 : tagName ≠ tagAge) (h2 : esc ≠ term) (v : StateValue) :
    Ser.decodeWith tagName tagAge esc term
      (Ser.encodeWith tagName tagAge esc term v) = .ok v := by
  cases v with
  | awaitingName => simp [Ser.encodeWith, Ser.decodeWith]
  | awaitingAge name =>
    simp [Ser.encodeWith, Ser.decodeWith, Ne.symm h1,
      Ser.escDec_escEnc esc term h2 name []]

theorem Ser.decodeWith_canonical (tagName tagAge esc term : Nat) :
    ∀ bs v, Ser.decodeWith tagName tagAge esc term bs = .ok v →
      Ser.encodeWith tagName tagAge esc term v = bs := by
  intro bs v h
  cases bs with
  | nil => simp [Ser.decodeWith] at h
  | cons b t =>
    simp only [Ser.decodeWith.eq_def] at h
    by_cases hb1 : b = tagName
    · by_cases ht : t = []
      · simp only [if_pos hb1, if_pos ht] at h
        simp at h
        subst h
        subst hb1
        subst ht
        simp [Ser.encodeWith]
      · simp [if_pos hb1, if_neg ht] at h
    · by_cases hb2 : b = tagAge
      · simp only [if_neg hb1, if_pos hb2] at h
        cases hd : Ser.escDec esc term t with
        | none => rw [hd] at h; simp at h
        | some p =>
          obtain ⟨name, rest⟩ := p
          rw [hd] at h
          cases rest with
          | cons x xs => simp at h
          | nil =>
            simp at h
            subst h
            subst hb2
            have hc := Ser.escDec_canonical esc term t name [] hd
            simp [Ser.encodeWith]
            rw [← hc]
      · simp [if_neg hb1, if_neg hb2] at h

/-- C1: for each supported Serializer strategy (JSON, CBOR, Bincode),
deserializing the bytes produced by serializing any constructible
StateValue yields exactly that value. -/
theorem serializer_roundtrip (v : StateValue) :
    JSON.deserialize (JSON.serialize v) = .ok v ∧
    CBOR.deserialize (CBOR.serialize v) = .ok v ∧
    Bincode.deserialize (Bincode.serialize v) = .ok v :=
  ⟨Ser.decodeWith_encodeWith 110 97 92 34 (by decide) (by decide) v,
    Ser.decodeWith_encodeWith 224 160 255 254 (by decide) (by decide) v,
    Ser.decodeWith_encodeWith 0 1 2 3 (by decide) (by decide) v⟩

/-- C5: the JSON deserializer returns a value only on byte sequences the
serializer can produce; on every other byte sequence (malformed,
truncated, or carrying an unknown variant tag) it returns an error. -/
theorem deserialize_rejects_malformed (bs : Str)
    (h : ¬ ∃ v, JSON.serialize v = bs) :
    ∃ e, JSON.deserialize bs = .error e := by
  cases hd : JSON.deserialize bs with
  | ok v => exact absurd ⟨v, Ser.decodeWith_canonical 110 97 92 34 bs v hd⟩ h
  | error e => exact ⟨e, rfl⟩

/-- C5 witness: the byte sequence consisting of the single byte 5 is not
a serializer output, and deserializing it yields an error. -/
theorem deserialize_rejects_malformed_witness :
    (¬ ∃ v, JSON.serialize v = [5]) ∧ ∃ e, JSON.deserialize [5] = .error e := by
  have h : ¬ ∃ v, JSON.serialize v = [5] := by
    rintro ⟨v, hv⟩
    cases v <;> simp [JSON.serialize, Ser.encodeWith] at hv
  exact ⟨h, deserialize_rejects_malformed [5] h⟩

/-- C6: serialize and deserialize of every strategy are deterministic:
two runs on equal inputs produce equal outputs. In this embedding they
are plain functions of their argument, so no other state is involved. -/
theorem serializer_deterministic (v w : StateValue) (bs cs : Str)
    (hv : v = w) (hb : bs = cs) :
    (JSON.serialize v = JSON.serialize w ∧
      CBOR.serialize v = CBOR.serialize w ∧
      Bincode.serialize v = Bincode.serialize w) ∧
    (JSON.deserialize bs = JSON.deserialize cs ∧
      CBOR.deserialize bs = CBOR.deserialize cs ∧
      Bincode.deserialize bs = Bincode.deserialize cs) := by
  subst hv
  subst hb
  exact ⟨⟨rfl, rfl, rfl⟩, rfl, rfl, rfl⟩

/-- C6 witness: determinism instantiated at the initial variant and the
empty byte sequence. -/
theorem serializer_deterministic_witness :
    (JSON.serialize .awaitingName = JSON.serialize .awaitingName ∧
      CBOR.serialize .awaitingName = CBOR.serialize .awaitingName ∧
      Bincode.serialize .awaitingName = Bincode.serialize .awaitingName) ∧
    (JSON.deserialize [] = JSON.deserialize [] ∧
      CBOR.deserialize [] = CBOR.deserialize [] ∧
      Bincode.deserialize [] = Bincode.deserialize []) :=
  serializer_deterministic .awaitingName .awaitingName [] [] rfl rfl

theorem JSON.roundtrip (v : StateValue) : JSON.deserialize (JSON.serialize v) = .ok v :=
  Ser.decodeWith_encodeWith 110 97 92 34 (by decide) (by decide) v

/-- C7: `update_state` and `remove_state` for one ConversationId leave
`get_state` of every other ConversationId unchanged. -/
theorem storage_no_cross_contamination (st : Dlg.Storage) (a b : ConversationId)
    (bs : Str) (h : a ≠ b) :
    Dlg.get_state (Dlg.update_state st a bs) b = Dlg.get_state st b ∧
    Dlg.get_state (Dlg.remove_state st a) b = Dlg.get_state st b := by
  constructor <;> simp [Dlg.get_state, Dlg.update_state, Dlg.remove_state, Ne.symm h]

/-- C7 witness: updating or removing id 0 leaves id 1 untouched in the
empty storage. -/
theorem storage_no_cross_contamination_witness :
    (0 : ConversationId) ≠ 1 ∧
    (Dlg.get_state (Dlg.update_state (fun _ => none) 0 [1]) 1
        = Dlg.get_state (fun _ => none) 1 ∧
      Dlg.get_state (Dlg.remove_state (fun _ => none) 0) 1
        = Dlg.get_state (fun _ => none) 1) :=
  ⟨by decide, storage_no_cross_contamination (fun _ => none) 0 1 [1] (by decide)⟩

/-- C3: a cycle that fails (deserialization, handler, or the storage
write) returns the storage exactly as it was, so the stored entry for
the id is unchanged, and the error is returned to the caller. -/
theorem cycle_failure_atomic (handler : Handler) (writeOk : Bool)
    (st : Dlg.Storage) (id : ConversationId) (msg : Msg) (e : DialogueError)
    (h : (Dlg.cycle handler writeOk st id msg).snd = .error e) :
    (Dlg.cycle handler writeOk st id msg).fst = st ∧
    Dlg.get_state (Dlg.cycle handler writeOk st id msg).fst id = Dlg.get_state st id := by
  have hfst : (Dlg.cycle handler writeOk st id msg).fst = st := by
    unfold Dlg.cycle at h ⊢
    cases hr : Dlg.readState st id with
    | error e2 => simp [hr]
    | ok v =>
      cases hh : handler v msg with
      | error he => simp [hr, hh]
      | ok tr =>
        cases tr with
        | next v2 =>
          cases writeOk with
          | true => simp [hr, hh] at h
          | false => simp [hr, hh]
        | done =>
          cases writeOk with
          | true => simp [hr, hh] at h
          | false => simp [hr, hh]
  exact ⟨hfst, by rw [hfst]⟩

/-- C3 witness: a failing handler on the empty storage leaves it
unchanged and surfaces the handler error. -/
theorem cycle_failure_atomic_witness :
    (Dlg.cycle (fun _ _ => .error .failed) true (fun _ => none) 0 []).snd
        = .error DialogueError.handlerFailed ∧
    ((Dlg.cycle (fun _ _ => .error .failed) true (fun _ => none) 0 []).fst
        = (fun _ => none) ∧
      Dlg.get_state (Dlg.cycle (fun _ _ => .error .failed) true (fun _ => none) 0 []).fst 0
        = Dlg.get_state (fun _ => none) 0) :=
  ⟨rfl, cycle_failure_atomic (fun _ _ => .error .failed) true (fun _ => none) 0 []
    DialogueError.handlerFailed rfl⟩

theorem Dlg.get_update_self (st : Dlg.Storage) (id : ConversationId) (bs : Str) :
    Dlg.get_state (Dlg.update_state st id bs) id = some bs := by
  simp [Dlg.get_state, Dlg.update_state]

theorem Dlg.get_remove_self (st : Dlg.Storage) (id : ConversationId) :
    Dlg.get_state (Dlg.remove_state st id) id = none := by
  simp [Dlg.get_state, Dlg.remove_state]

theorem Dlg.cycle_sim (handler : Handler) (st : Dlg.Storage) (id : ConversationId)
    (m : Msg) (v? : Option StateValue)
    (h : Dlg.get_state st id = v?.map JSON.serialize) :
    Dlg.get_state (Dlg.cycle handler true st id m).fst id
      = (Dlg.pureCycle handler v? m).map JSON.serialize := by
  have hread : Dlg.readState st id = .ok (v?.getD .awaitingName) := by
    cases v? with
    | none => simp at h; simp [Dlg.readState, h]
    | some v => simp at h; simp [Dlg.readState, h, JSON.roundtrip v]
  unfold Dlg.cycle Dlg.pureCycle
  simp only [hread]
  cases hh : handler (v?.getD .awaitingName) m with
  | error he => simp [hh, h]
  | ok tr =>
    cases tr with
    | next v2 => simp [hh, Dlg.get_update_self]
    | done => simp [hh, Dlg.get_remove_self]

/-- C2: with cycles for one ConversationId serialized (mutual exclusion
per id, modelled as sequential execution in arrival order), the stored
entry after N cycles is the serialization of the fold of the pure
per-message transitions in that order — the result of applying the N
transitions in a total order, never a torn or interleaved value. -/
theorem per_id_serialized_fold (handler : Handler) (msgs : List Msg)
    (st : Dlg.Storage) (id : ConversationId) (v? : Option StateValue)
    (h : Dlg.get_state st id = v?.map JSON.serialize) :
    Dlg.get_state (Dlg.runCycles handler st id msgs) id
      = (msgs.foldl (Dlg.pureCycle handler) v?).map JSON.serialize := by
  induction msgs generalizing st v? with
  | nil => simpa [Dlg.runCycles] using h
  | cons m ms ih =>
    simp only [Dlg.runCycles, List.foldl_cons]
    exact ih _ _ (Dlg.cycle_sim handler st id m v? h)

/-- C2 witness: one cycle on the empty storage stores the serialization
of the state produced by the single transition. -/
theorem per_id_serialized_fold_witness :
    Dlg.get_state (fun _ => none) 0 = Option.map JSON.serialize none ∧
    Dlg.get_state
        (Dlg.runCycles (fun _ m => .ok (.next (.awaitingAge m))) (fun _ => none) 0 [[65]]) 0
      = (List.foldl (Dlg.pureCycle (fun _ m => .ok (.next (.awaitingAge m)))) none
          [[65]]).map JSON.serialize :=
  ⟨rfl, per_id_serialized_fold (fun _ m => .ok (.next (.awaitingAge m))) [[65]]
    (fun _ => none) 0 none rfl⟩

/-- C4 counterexample: the start handler is not a pure, side-effect-free
function of (current variant, incoming message): with the variant and
the message fixed, its result still depends on the context (whether the
send succeeds), and on success it emits a send of the prompt. -/
theorem start_not_pure :
    start ⟨⟩ ⟨true⟩ [] ≠ start ⟨⟩ ⟨false⟩ [] ∧
    start ⟨⟩ ⟨true⟩ [] = .ok ([startPrompt], .next .receiveFullNameState) := by
  constructor
  · intro hcontra
    rw [show start ⟨⟩ ⟨true⟩ [] = .ok ([startPrompt], .next .receiveFullNameState) from rfl,
      show start ⟨⟩ ⟨false⟩ [] = .error .network from rfl] at hcontra
    exact Except.noConfusion hcontra
  · rfl

/-- C4 amended: each per-variant handler is deterministic — two
invocations with equal state, context, and message produce equal
results — its effects are confined to the messages sent through the
supplied context (returned explicitly here), and it can fail only with
the request error of a failed send. -/
theorem start_deterministic (s1 s2 : StartState) (cx1 cx2 : TransitionIn)
    (a1 a2 : Str) (hc : cx1 = cx2) (ha : a1 = a2) :
    start s1 cx1 a1 = start s2 cx2 a2 := by
  subst hc
  subst ha
  rfl

/-- C4 witness: determinism instantiated at the succeeding context and
the empty message. -/
theorem start_deterministic_witness :
    (⟨true⟩ : TransitionIn) = ⟨true⟩ ∧ ([] : Str) = [] ∧
    start ⟨⟩ ⟨true⟩ [] = start ⟨⟩ ⟨true⟩ [] :=
  ⟨rfl, rfl, start_deterministic ⟨⟩ ⟨⟩ ⟨true⟩ ⟨true⟩ [] [] rfl rfl⟩
